import Mathlib

/-!
Verification of the hybrid retrieval pipeline of the Codemate repository
(`retrieval.py`), shallowly embedded in Lean 4.

Scores are `Option ℚ` (llama-index `NodeWithScore.score` is `Optional[float]`;
we model the exact arithmetic of the fusion over the rationals).  The Python
dict `node_dict` built by `HybridRetriever._retrieve` is modelled as an
association list in insertion order (Python dicts preserve insertion order),
and `list.sort(key=..., reverse=True)` as Mathlib's stable `insertionSort`
with the descending-by-effective-score relation.  Python raises `TypeError`
when `None` takes part in the score average `(old + new) / 2`; we model that
with `Except String`.
-/

/-- A retrievable node: stable identifier, text content and metadata
(the fields of a llama-index node that the fusion code can observe). -/
structure Node where
  node_id : String
  text : String
  window : String
  metadata : List (String × String)
deriving DecidableEq, Repr

/-- A `(Node, score)` pair as produced by a retrieval stage
(llama-index `NodeWithScore`; `score` is optional). -/
structure NodeWithScore where
  node : Node
  score : Option ℚ
deriving DecidableEq, Repr

/-- The identifier a fused entry is keyed by: `node.node.node_id` in the source. -/
def nwsId (n : NodeWithScore) : String := n.node.node_id

/-- The sort key of line 69 of `retrieval.py`: `x.score if x.score else 0`.
`None` (and a score of `0`, which is falsy in Python) is treated as `0`. -/
def effScore (n : NodeWithScore) : ℚ := n.score.getD 0

/-- Python's `(old + new) / 2` on optional scores (lines 56 and 65):
defined only when both operands are numeric, otherwise a `TypeError`. -/
def mergeScores : Option ℚ → Option ℚ → Except String ℚ
  | some a, some b => Except.ok ((a + b) / 2)
  | _, _ => Except.error "TypeError: unsupported operand for +: NoneType"

/-- The fusion dictionary `node_dict`: node identifier to `NodeWithScore`,
kept in insertion order as a Python dict is. -/
abbrev NodeDict := List (String × NodeWithScore)

/-- Dict lookup by node identifier (first, hence with `Nodup` keys unique, hit). -/
def lookupD : NodeDict → String → Option NodeWithScore
  | [], _ => none
  | (k, v) :: d, nid => if k = nid then some v else lookupD d nid

/-- The `else` branch of lines 54-56 / 63-65: replace the stored entry's score
with the average of the stored score and the incoming one, in place (the
entry keeps its position and its node, only the score field changes). -/
def updateScore : NodeDict → String → Option ℚ → Except String NodeDict
  | [], _, _ => Except.error "KeyError"
  | (k, v) :: d, nid, s =>
    if k = nid then
      match mergeScores v.score s with
      | Except.ok m => Except.ok ((k, { v with score := some m }) :: d)
      | Except.error e => Except.error e
    else
      match updateScore d nid s with
      | Except.ok d2 => Except.ok ((k, v) :: d2)
      | Except.error e => Except.error e

/-- One iteration of the fusion loops (lines 50-56 and 59-65): insert the node
if its identifier is new, otherwise average the scores. -/
def insertNode (d : NodeDict) (n : NodeWithScore) : Except String NodeDict :=
  if (lookupD d (nwsId n)).isSome then
    updateScore d (nwsId n) n.score
  else
    Except.ok (d ++ [(nwsId n, n)])

/-- A whole fusion loop over one stage's result list. -/
def insertAll (d : NodeDict) : List NodeWithScore → Except String NodeDict
  | [] => Except.ok d
  | n :: ns =>
    match insertNode d n with
    | Except.ok d2 => insertAll d2 ns
    | Except.error e => Except.error e

/-- The descending-score ordering used by
`all_nodes.sort(key=lambda x: x.score if x.score else 0, reverse=True)`. -/
def scoreGE (a b : NodeWithScore) : Prop := effScore b ≤ effScore a

instance : DecidableRel scoreGE := fun a b =>
  inferInstanceAs (Decidable (effScore b ≤ effScore a))

instance : IsTotal NodeWithScore scoreGE := ⟨fun a b => le_total (effScore b) (effScore a)⟩

instance : IsTrans NodeWithScore scoreGE :=
  ⟨fun _ _ _ h1 h2 => le_trans h2 h1⟩

/-- Lines 46-71 of `retrieval.py`: `HybridRetriever._retrieve` after the two
sub-retriever calls.  Build `node_dict` from the vector results, then the BM25
results, then return the dict's values sorted by score descending (Python's
`list.sort` is stable, as is `insertionSort`). -/
def hybridFuse (vector_nodes bm25_nodes : List NodeWithScore) :
    Except String (List NodeWithScore) :=
  match insertAll [] vector_nodes with
  | Except.error e => Except.error e
  | Except.ok d =>
    match insertAll d bm25_nodes with
    | Except.error e => Except.error e
    | Except.ok d2 => Except.ok (List.insertionSort scoreGE (d2.map Prod.snd))

/-- Lines 41-71 of `retrieval.py`: `_retrieve` including the two sub-retriever
calls, which may raise; an exception from either propagates unchanged. -/
def hybridRetrieve (vr br : String → Except String (List NodeWithScore))
    (query : String) : Except String (List NodeWithScore) :=
  match vr query with
  | Except.error e => Except.error e
  | Except.ok vector_nodes =>
    match br query with
    | Except.error e => Except.error e
    | Except.ok bm25_nodes => hybridFuse vector_nodes bm25_nodes

/-- The observable state of the persisted storage and environment that
`verify_storage` and `setup_query_engine` branch on: existence of
`config.STORAGE_DIR` and `config.DOCSTORE_PATH`, the parsed `docstore.json`
content (presence of the docstore data key and how many documents it maps),
and whether `GOOGLE_API_KEY` is set to a non-empty value. -/
structure StorageState where
  storageDirExists : Bool
  docstoreFileExists : Bool
  docstoreHasDataKey : Bool
  docstoreDocCount : Nat
  apiKeyPresent : Bool
deriving DecidableEq, Repr

/-- Lines 73-92 of `retrieval.py`: `verify_storage`.  Missing storage
directory or docstore file raise `FileNotFoundError`; a docstore whose data
key is absent or maps zero documents raises `ValueError`. -/
def verify_storage (s : StorageState) : Except String Unit :=
  if ! s.storageDirExists then
    Except.error "FileNotFoundError: Storage directory not found. Run ingestion first."
  else if ! s.docstoreFileExists then
    Except.error "FileNotFoundError: Docstore file not found. Run ingestion first."
  else if ! s.docstoreHasDataKey || s.docstoreDocCount == 0 then
    Except.error "ValueError: Docstore exists but contains no documents."
  else
    Except.ok ()

/-- The assembled query engine returned by `setup_query_engine`; the external
llama-index objects are opaque, we record the doc count of the docstore
backing its retrievers. -/
structure QueryEngineHandle where
  docCount : Nat
deriving DecidableEq, Repr

/-- Lines 94-178 of `retrieval.py`: `setup_query_engine`.  It runs
`verify_storage` first, then checks `GOOGLE_API_KEY`, then loads the
persisted docstore (`SimpleDocumentStore.from_persist_path`, so the loaded
doc count is the persisted entry count) and fails if it holds zero
documents.  The external model/index loading is opaque and modelled as
succeeding; only the validation branches present in the source are
modelled. -/
def setup_query_engine (s : StorageState) : Except String QueryEngineHandle :=
  match verify_storage s with
  | Except.error e => Except.error e
  | Except.ok _ =>
    if ! s.apiKeyPresent then
      Except.error "ValueError: GOOGLE_API_KEY not found in environment variables"
    else if s.docstoreDocCount == 0 then
      Except.error "ValueError: Docstore loaded but contains no documents."
    else
      Except.ok ⟨s.docstoreDocCount⟩

/-- Modelled from the spec: `ColbertRerank`, the llama-index ColBERT
postprocessor constructed at lines 160-165 of `retrieval.py`, whose
implementation is external library code not in this repository.  Per spec
section 4.4 it computes a cross-encoder relevance score for each
(query, node-text) pair, replaces the fusion score with it, and returns the
top `top_n` candidates by the new score; when more are requested than
available it returns all available, never padding and never raising. -/
def colbertRerank (crossScore : String → Node → ℚ) (query : String)
    (top_n : Nat) (candidates : List NodeWithScore) : List NodeWithScore :=
  (List.insertionSort scoreGE
    (candidates.map (fun c => { c with score := some (crossScore query c.node) }))).take
    top_n

/-- An answer plus cited source node identifiers: the response shape of the
query-serving surface. -/
structure AnswerResponse where
  answer : String
  sources : List String
deriving DecidableEq, Repr

/-- Modelled from the spec: the Query Engine orchestration
(`RetrieverQueryEngine.from_args` at lines 168-171 of `retrieval.py`,
external llama-index code): take the retrieval outcome, re-rank, then hand
the final node texts to the opaque synthesis capability `synth`; zero
candidates is a valid state (spec section 7, `EmptyResultError` is not an
error) and still produces a well-formed response. -/
def queryEngineAnswer (synth : List NodeWithScore → String)
    (crossScore : String → Node → ℚ) (top_n : Nat)
    (retrieved : Except String (List NodeWithScore)) (query : String) :
    Except String AnswerResponse :=
  match retrieved with
  | Except.error e => Except.error e
  | Except.ok nodes =>
    Except.ok ⟨synth (colbertRerank crossScore query top_n nodes),
      (colbertRerank crossScore query top_n nodes).map nwsId⟩

/-- Concrete node used in witnesses (spec section 8, scenario 2). -/
def nodeD : Node := ⟨"D", "dogs are mammals", "dogs are mammals window", []⟩

/-- Concrete node used in witnesses (spec section 8, scenario 2). -/
def nodeE : Node := ⟨"E", "cats are mammals", "cats are mammals window", []⟩

/-- Concrete node used in the `None`-score counterexample and witnesses. -/
def nodeN : Node := ⟨"N", "n-text", "n-window", []⟩

/-! ### Lemmas about the fusion dictionary -/

/-- The entries invariant of `node_dict`: keys are distinct (it is a dict) and
each stored `NodeWithScore` is keyed by its own node identifier. -/
def DictInv (d : NodeDict) : Prop :=
  (d.map Prod.fst).Nodup ∧ ∀ p ∈ d, p.2.node.node_id = p.1

theorem lookupD_append (d1 d2 : NodeDict) (k : String) :
    lookupD (d1 ++ d2) k =
      match lookupD d1 k with
      | some v => some v
      | none => lookupD d2 k := by
  induction d1 with
  | nil => simp [lookupD]
  | cons p d1 ih =>
    obtain ⟨k0, v0⟩ := p
    by_cases h : k0 = k <;> simp [lookupD, h, ih]

theorem lookupD_isSome_iff_mem_keys (d : NodeDict) (k : String) :
    (lookupD d k).isSome ↔ k ∈ d.map Prod.fst := by
  induction d with
  | nil => simp [lookupD]
  | cons p d ih =>
    obtain ⟨k0, v0⟩ := p
    by_cases h : k0 = k
    · subst h
      simp [lookupD]
    · have h' : ¬ k = k0 := fun hh => h hh.symm
      simp [lookupD, h, h', ih]

theorem lookupD_mem {d : NodeDict} {k : String} {v : NodeWithScore}
    (h : lookupD d k = some v) : (k, v) ∈ d := by
  induction d with
  | nil => simp [lookupD] at h
  | cons p d ih =>
    obtain ⟨k0, v0⟩ := p
    by_cases hk : k0 = k
    · subst hk
      simp [lookupD] at h
      subst h
      exact List.mem_cons_self _ _
    · simp [lookupD, hk] at h
      exact List.mem_cons_of_mem _ (ih h)

theorem mem_lookupD_of_nodup {d : NodeDict} {k : String} {v : NodeWithScore}
    (hnd : (d.map Prod.fst).Nodup) (h : (k, v) ∈ d) : lookupD d k = some v := by
  induction d with
  | nil => simp at h
  | cons p d ih =>
    obtain ⟨k0, v0⟩ := p
    rw [List.map_cons, List.nodup_cons] at hnd
    rcases List.mem_cons.mp h with h0 | h0
    · cases h0
      simp [lookupD]
    · have hk : ¬ k0 = k := fun hh => hnd.1 (by
        rw [hh]
        exact List.mem_map.mpr ⟨(k, v), h0, rfl⟩)
      simp [lookupD, hk, ih hnd.2 h0]

theorem updateScore_keys {d d' : NodeDict} {k : String} {s : Option ℚ}
    (h : updateScore d k s = Except.ok d') :
    d'.map Prod.fst = d.map Prod.fst := by
  induction d generalizing d' with
  | nil => simp [updateScore] at h
  | cons p d ih =>
    obtain ⟨k0, v0⟩ := p
    by_cases hk : k0 = k
    · simp only [updateScore, if_pos hk] at h
      cases hm : mergeScores v0.score s with
      | ok m => rw [hm] at h; cases h; simp
      | error e => rw [hm] at h; cases h
    · simp only [updateScore, if_neg hk] at h
      cases hd : updateScore d k s with
      | ok d2 => rw [hd] at h; cases h; simpa using ih hd
      | error e => rw [hd] at h; cases h

theorem updateScore_mem {d d' : NodeDict} {k : String} {s : Option ℚ}
    (h : updateScore d k s = Except.ok d') :
    ∀ p ∈ d', ∃ q ∈ d, p.1 = q.1 ∧ p.2.node = q.2.node := by
  induction d generalizing d' with
  | nil => simp [updateScore] at h
  | cons p0 d ih =>
    obtain ⟨k0, v0⟩ := p0
    by_cases hk : k0 = k
    · simp only [updateScore, if_pos hk] at h
      cases hm : mergeScores v0.score s with
      | ok m =>
        rw [hm] at h
        cases h
        intro p hp
        rcases List.mem_cons.mp hp with h0 | h0
        · exact ⟨(k0, v0), List.mem_cons_self _ _, by simp [h0]⟩
        · exact ⟨p, List.mem_cons_of_mem _ h0, rfl, rfl⟩
      | error e => rw [hm] at h; cases h
    · simp only [updateScore, if_neg hk] at h
      cases hd : updateScore d k s with
      | ok d2 =>
        rw [hd] at h
        cases h
        intro p hp
        rcases List.mem_cons.mp hp with h0 | h0
        · exact ⟨(k0, v0), List.mem_cons_self _ _, by simp [h0]⟩
        · obtain ⟨q, hq, hq1, hq2⟩ := ih hd p h0
          exact ⟨q, List.mem_cons_of_mem _ hq, hq1, hq2⟩
      | error e => rw [hd] at h; cases h

theorem updateScore_lookup_other {d d' : NodeDict} {k k' : String} {s : Option ℚ}
    (hne : k' ≠ k) (h : updateScore d k s = Except.ok d') :
    lookupD d' k' = lookupD d k' := by
  induction d generalizing d' with
  | nil => simp [updateScore] at h
  | cons p0 d ih =>
    obtain ⟨k0, v0⟩ := p0
    by_cases hk : k0 = k
    · simp only [updateScore, if_pos hk] at h
      cases hm : mergeScores v0.score s with
      | ok m =>
        rw [hm] at h
        cases h
        have hk0 : ¬ k0 = k' := fun hh => hne (hh.symm.trans hk)
        simp [lookupD, hk0]
      | error e => rw [hm] at h; cases h
    · simp only [updateScore, if_neg hk] at h
      cases hd : updateScore d k s with
      | ok d2 =>
        rw [hd] at h
        cases h
        by_cases hkk : k0 = k' <;> simp [lookupD, hkk, ih hd]
      | error e => rw [hd] at h; cases h

theorem updateScore_lookup_self {d d' : NodeDict} {k : String} {s : Option ℚ}
    {v : NodeWithScore}
    (hv : lookupD d k = some v) (h : updateScore d k s = Except.ok d') :
    ∃ m, mergeScores v.score s = Except.ok m ∧
      lookupD d' k = some { v with score := some m } := by
  induction d generalizing d' with
  | nil => simp [updateScore] at h
  | cons p0 d ih =>
    obtain ⟨k0, v0⟩ := p0
    by_cases hk : k0 = k
    · subst hk
      have hv0 : v0 = v := by simpa [lookupD] using hv
      subst hv0
      simp only [updateScore, if_pos rfl] at h
      cases hm : mergeScores v0.score s with
      | ok m =>
        rw [hm] at h
        cases h
        exact ⟨m, rfl, by simp [lookupD]⟩
      | error e => rw [hm] at h; cases h
    · simp only [lookupD, if_neg hk] at hv
      simp only [updateScore, if_neg hk] at h
      cases hd : updateScore d k s with
      | ok d2 =>
        rw [hd] at h
        cases h
        obtain ⟨m, hm, hl⟩ := ih hv hd
        exact ⟨m, hm, by simp [lookupD, hk, hl]⟩
      | error e => rw [hd] at h; cases h

theorem insertNode_lookup_other {d d' : NodeDict} {n : NodeWithScore} {k : String}
    (hne : ¬ k = nwsId n) (h : insertNode d n = Except.ok d') :
    lookupD d' k = lookupD d k := by
  cases hv : lookupD d (nwsId n) with
  | some v =>
    simp only [insertNode, hv, Option.isSome_some, if_true] at h
    exact updateScore_lookup_other hne h
  | none =>
    simp only [insertNode, hv, Option.isSome_none, Bool.false_eq_true, if_false,
      Except.ok.injEq] at h
    subst h
    rw [lookupD_append]
    cases hk : lookupD d k with
    | some v => rfl
    | none =>
      have hne' : ¬ nwsId n = k := fun hh => hne hh.symm
      simp [lookupD, hne']

theorem insertNode_isSome_self {d d' : NodeDict} {n : NodeWithScore}
    (h : insertNode d n = Except.ok d') : (lookupD d' (nwsId n)).isSome := by
  cases hv : lookupD d (nwsId n) with
  | some v =>
    simp only [insertNode, hv, Option.isSome_some, if_true] at h
    rw [lookupD_isSome_iff_mem_keys, updateScore_keys h,
      ← lookupD_isSome_iff_mem_keys, hv]
    rfl
  | none =>
    simp only [insertNode, hv, Option.isSome_none, Bool.false_eq_true, if_false,
      Except.ok.injEq] at h
    subst h
    rw [lookupD_isSome_iff_mem_keys]
    simp

theorem insertNode_isSome_mono {d d' : NodeDict} {n : NodeWithScore} {k : String}
    (hs : (lookupD d k).isSome) (h : insertNode d n = Except.ok d') :
    (lookupD d' k).isSome := by
  cases hv : lookupD d (nwsId n) with
  | some v =>
    simp only [insertNode, hv, Option.isSome_some, if_true] at h
    rw [lookupD_isSome_iff_mem_keys, updateScore_keys h, ← lookupD_isSome_iff_mem_keys]
    exact hs
  | none =>
    simp only [insertNode, hv, Option.isSome_none, Bool.false_eq_true, if_false,
      Except.ok.injEq] at h
    subst h
    rw [lookupD_isSome_iff_mem_keys] at hs ⊢
    rw [List.map_append]
    exact List.mem_append_left _ hs

theorem insertNode_inv {d d' : NodeDict} {n : NodeWithScore}
    (hinv : DictInv d) (h : insertNode d n = Except.ok d') : DictInv d' := by
  cases hv : lookupD d (nwsId n) with
  | some v =>
    simp only [insertNode, hv, Option.isSome_some, if_true] at h
    refine ⟨updateScore_keys h ▸ hinv.1, fun p hp => ?_⟩
    obtain ⟨q, hq, hq1, hq2⟩ := updateScore_mem h p hp
    rw [hq1, hq2]
    exact hinv.2 q hq
  | none =>
    simp only [insertNode, hv, Option.isSome_none, Bool.false_eq_true, if_false,
      Except.ok.injEq] at h
    subst h
    constructor
    · rw [List.map_append, List.nodup_append]
      refine ⟨hinv.1, List.nodup_singleton _, fun k hk hk2 => ?_⟩
      have : ¬ (lookupD d (nwsId n)).isSome := by rw [hv]; simp
      rw [lookupD_isSome_iff_mem_keys] at this
      simp at hk2
      exact this (hk2 ▸ hk)
    · intro p hp
      rcases List.mem_append.mp hp with h0 | h0
      · exact hinv.2 p h0
      · simp at h0
        rw [h0]
        rfl

theorem insertAll_cons_ok {d d' : NodeDict} {n : NodeWithScore} {ns : List NodeWithScore}
    (h : insertAll d (n :: ns) = Except.ok d') :
    ∃ d0, insertNode d n = Except.ok d0 ∧ insertAll d0 ns = Except.ok d' := by
  simp only [insertAll] at h
  cases hi : insertNode d n with
  | ok d0 => rw [hi] at h; exact ⟨d0, rfl, h⟩
  | error e => rw [hi] at h; cases h

theorem insertAll_append_ok {d d' : NodeDict} {xs ys : List NodeWithScore}
    (h : insertAll d (xs ++ ys) = Except.ok d') :
    ∃ d0, insertAll d xs = Except.ok d0 ∧ insertAll d0 ys = Except.ok d' := by
  induction xs generalizing d with
  | nil => exact ⟨d, rfl, h⟩
  | cons n xs ih =>
    rw [List.cons_append] at h
    obtain ⟨d0, h1, h2⟩ := insertAll_cons_ok h
    obtain ⟨d1, h3, h4⟩ := ih h2
    exact ⟨d1, by simp [insertAll, h1, h3], h4⟩

theorem insertAll_lookup_frame {d d' : NodeDict} {ns : List NodeWithScore} {k : String}
    (hk : ∀ n ∈ ns, ¬ nwsId n = k) (h : insertAll d ns = Except.ok d') :
    lookupD d' k = lookupD d k := by
  induction ns generalizing d with
  | nil =>
    simp only [insertAll, Except.ok.injEq] at h
    subst h
    rfl
  | cons n ns ih =>
    obtain ⟨d0, h1, h2⟩ := insertAll_cons_ok h
    have hne : ¬ k = nwsId n := fun hh => hk n (List.mem_cons_self _ _) hh.symm
    rw [ih (fun m hm => hk m (List.mem_cons_of_mem _ hm)) h2,
      insertNode_lookup_other hne h1]

theorem insertAll_isSome_mono {d d' : NodeDict} {ns : List NodeWithScore} {k : String}
    (hs : (lookupD d k).isSome) (h : insertAll d ns = Except.ok d') :
    (lookupD d' k).isSome := by
  induction ns generalizing d with
  | nil =>
    simp only [insertAll, Except.ok.injEq] at h
    subst h
    exact hs
  | cons n ns ih =>
    obtain ⟨d0, h1, h2⟩ := insertAll_cons_ok h
    exact ih (insertNode_isSome_mono hs h1) h2

theorem insertAll_mem_isSome {d d' : NodeDict} {ns : List NodeWithScore}
    {n : NodeWithScore} (hmem : n ∈ ns) (h : insertAll d ns = Except.ok d') :
    (lookupD d' (nwsId n)).isSome := by
  induction ns generalizing d with
  | nil => simp at hmem
  | cons m ns ih =>
    obtain ⟨d0, h1, h2⟩ := insertAll_cons_ok h
    rcases List.mem_cons.mp hmem with h0 | h0
    · subst h0
      exact insertAll_isSome_mono (insertNode_isSome_self h1) h2
    · exact ih h0 h2

theorem insertAll_inv {d d' : NodeDict} {ns : List NodeWithScore}
    (hinv : DictInv d) (h : insertAll d ns = Except.ok d') : DictInv d' := by
  induction ns generalizing d with
  | nil =>
    simp only [insertAll, Except.ok.injEq] at h
    subst h
    exact hinv
  | cons n ns ih =>
    obtain ⟨d0, h1, h2⟩ := insertAll_cons_ok h
    exact ih (insertNode_inv hinv h1) h2

theorem hybridFuse_ok_elim {v b out : List NodeWithScore}
    (h : hybridFuse v b = Except.ok out) :
    ∃ dv db, insertAll [] v = Except.ok dv ∧ insertAll dv b = Except.ok db ∧
      out = List.insertionSort scoreGE (db.map Prod.snd) := by
  unfold hybridFuse at h
  cases h1 : insertAll [] v with
  | error e => rw [h1] at h; cases h
  | ok dv =>
    rw [h1] at h
    cases h2 : insertAll dv b with
    | error e =>
      simp only [h2] at h
      cases h
    | ok db =>
      simp only [h2] at h
      refine ⟨dv, db, rfl, h2, ?_⟩
      injection h with h
      exact h.symm

/-! ### Stability of the descending sort -/

theorem filter_orderedInsert (q : ℚ) (a : NodeWithScore) (l : List NodeWithScore) :
    (List.orderedInsert scoreGE a l).filter (fun n => decide (effScore n = q)) =
      (List.filter (fun n => decide (effScore n = q)) [a]) ++
        l.filter (fun n => decide (effScore n = q)) := by
  induction l with
  | nil => simp [List.orderedInsert]
  | cons b l ih =>
    by_cases hab : scoreGE a b
    · simp only [List.orderedInsert, if_pos hab]
      rw [show a :: b :: l = [a] ++ (b :: l) from rfl, List.filter_append]
    · simp only [List.orderedInsert, if_neg hab]
      have hlt : effScore a < effScore b := lt_of_not_le hab
      by_cases hb : effScore b = q
      · have ha : ¬ effScore a = q := by
          rw [← hb]
          exact ne_of_lt hlt
        simp [List.filter_cons, hb, ha, ih]
      · simp [List.filter_cons, hb, ih]

theorem filter_insertionSort (q : ℚ) (l : List NodeWithScore) :
    (List.insertionSort scoreGE l).filter (fun n => decide (effScore n = q)) =
      l.filter (fun n => decide (effScore n = q)) := by
  induction l with
  | nil => rfl
  | cons x xs ih =>
    simp only [List.insertionSort]
    rw [filter_orderedInsert, ih,
      show x :: xs = [x] ++ xs from rfl, List.filter_append]

/-! ### The fused entry of a node returned by both stages -/

theorem lookupD_after_fuse
    {v1 v2 b1 b2 : List NodeWithScore} {nv nb : NodeWithScore} {X : String}
    {a q : ℚ} {dv db : NodeDict}
    (hvX : nwsId nv = X) (hbX : nwsId nb = X)
    (ha : nv.score = some a) (hq : nb.score = some q)
    (hv1 : ∀ n ∈ v1, ¬ nwsId n = X) (hv2 : ∀ n ∈ v2, ¬ nwsId n = X)
    (hb1 : ∀ n ∈ b1, ¬ nwsId n = X) (hb2 : ∀ n ∈ b2, ¬ nwsId n = X)
    (hdv : insertAll [] (v1 ++ nv :: v2) = Except.ok dv)
    (hdb : insertAll dv (b1 ++ nb :: b2) = Except.ok db) :
    lookupD db X = some { nv with score := some ((a + q) / 2) } := by
  obtain ⟨d1, hA, hB⟩ := insertAll_append_ok hdv
  obtain ⟨d1x, hC, hD⟩ := insertAll_cons_ok hB
  have hl1 : lookupD d1 X = none := by
    rw [insertAll_lookup_frame hv1 hA]
    rfl
  have hC' : insertNode d1 nv = Except.ok (d1 ++ [(X, nv)]) := by
    rw [insertNode, hvX, hl1]
    simp
  rw [hC] at hC'
  injection hC' with hC'
  subst hC'
  have hl2 : lookupD dv X = some nv := by
    rw [insertAll_lookup_frame hv2 hD, lookupD_append, hl1]
    simp [lookupD]
  obtain ⟨d2, hE, hF⟩ := insertAll_append_ok hdb
  obtain ⟨d2x, hG, hH⟩ := insertAll_cons_ok hF
  have hl3 : lookupD d2 X = some nv := by
    rw [insertAll_lookup_frame hb1 hE]
    exact hl2
  rw [insertNode, hbX, hl3] at hG
  simp only [Option.isSome_some, if_true] at hG
  obtain ⟨m, hm, hl4⟩ := updateScore_lookup_self hl3 hG
  rw [ha, hq] at hm
  have hm2 : m = (a + q) / 2 := by
    have : mergeScores (some a) (some q) = Except.ok ((a + q) / 2) := rfl
    rw [this] at hm
    injection hm with hm
    exact hm.symm
  subst hm2
  rw [insertAll_lookup_frame hb2 hH]
  exact hl4

theorem fused_entry_of_both
    {v1 v2 b1 b2 : List NodeWithScore} {nv nb : NodeWithScore} {X : String}
    {a q : ℚ} {out : List NodeWithScore}
    (hvX : nwsId nv = X) (hbX : nwsId nb = X)
    (ha : nv.score = some a) (hq : nb.score = some q)
    (hv1 : ∀ n ∈ v1, ¬ nwsId n = X) (hv2 : ∀ n ∈ v2, ¬ nwsId n = X)
    (hb1 : ∀ n ∈ b1, ¬ nwsId n = X) (hb2 : ∀ n ∈ b2, ¬ nwsId n = X)
    (hok : hybridFuse (v1 ++ nv :: v2) (b1 ++ nb :: b2) = Except.ok out) :
    ({ nv with score := some ((a + q) / 2) } : NodeWithScore) ∈ out ∧
      ∀ m ∈ out, m.node.node_id = X →
        m = { nv with score := some ((a + q) / 2) } := by
  obtain ⟨dv, db, hdv, hdb, hout⟩ := hybridFuse_ok_elim hok
  have hlook := lookupD_after_fuse hvX hbX ha hq hv1 hv2 hb1 hb2 hdv hdb
  have hinvdb : DictInv db :=
    insertAll_inv (insertAll_inv ⟨by simp, by simp⟩ hdv) hdb
  have hmem : ({ nv with score := some ((a + q) / 2) } : NodeWithScore) ∈
      db.map Prod.snd :=
    List.mem_map.mpr ⟨(X, { nv with score := some ((a + q) / 2) }),
      lookupD_mem hlook, rfl⟩
  constructor
  · rw [hout]
    exact (List.perm_insertionSort scoreGE _).mem_iff.mpr hmem
  · intro m hm hmX
    rw [hout] at hm
    have hm2 : m ∈ db.map Prod.snd :=
      (List.perm_insertionSort scoreGE _).mem_iff.mp hm
    obtain ⟨p, hp, hp2⟩ := List.mem_map.mp hm2
    have hpk : p.1 = X := by
      rw [← hinvdb.2 p hp, hp2, hmX]
    have hpmem : (X, m) ∈ db := by
      rw [← hpk, ← hp2]
      simpa using hp
    have hl : lookupD db X = some m := mem_lookupD_of_nodup hinvdb.1 hpmem
    rw [hlook] at hl
    injection hl with hl
    exact hl.symm

/-! ### Claim theorems -/

/-- C1.  Score-averaging merge correctness: for every query whose vector
sub-retriever returns node `X` (once, with numeric score `a`) and whose
lexical sub-retriever also returns `X` (once, with numeric score `q`), the
fused candidate list produced by `HybridRetriever._retrieve` contains `X`
with score exactly `(a + q) / 2`. -/
theorem claim_C1_score_averaging
    {v1 v2 b1 b2 : List NodeWithScore} {nv nb : NodeWithScore} {X : String}
    {a q : ℚ} {out : List NodeWithScore}
    (hvX : nwsId nv = X) (hbX : nwsId nb = X)
    (ha : nv.score = some a) (hq : nb.score = some q)
    (hv1 : ∀ n ∈ v1, ¬ nwsId n = X) (hv2 : ∀ n ∈ v2, ¬ nwsId n = X)
    (hb1 : ∀ n ∈ b1, ¬ nwsId n = X) (hb2 : ∀ n ∈ b2, ¬ nwsId n = X)
    (hok : hybridFuse (v1 ++ nv :: v2) (b1 ++ nb :: b2) = Except.ok out) :
    ∃ m ∈ out, nwsId m = X ∧ m.score = some ((a + q) / 2) := by
  obtain ⟨hmem, _⟩ := fused_entry_of_both hvX hbX ha hq hv1 hv2 hb1 hb2 hok
  exact ⟨_, hmem, hvX, rfl⟩

/-- Witness for C1: scenario 2 of spec section 8 — `D` scored `9/10` by the
vector stage only, `E` scored `6/10` by the vector stage and `8/10` by the
lexical stage; the fused list carries `E` at `(6/10 + 8/10) / 2 = 7/10`. -/
theorem claim_C1_score_averaging_witness :
    ∃ m ∈ [(⟨nodeD, some (9/10)⟩ : NodeWithScore), ⟨nodeE, some (7/10)⟩],
      nwsId m = "E" ∧ m.score = some ((6/10 + 8/10) / 2) :=
  @claim_C1_score_averaging [⟨nodeD, some (9/10)⟩] [] [] []
    ⟨nodeE, some (6/10)⟩ ⟨nodeE, some (8/10)⟩ "E" (6/10) (8/10)
    [⟨nodeD, some (9/10)⟩, ⟨nodeE, some (7/10)⟩]
    rfl rfl rfl rfl (by decide) (by decide) (by decide) (by decide)
    (by norm_num +decide [hybridFuse, insertAll, insertNode, updateScore,
      lookupD, nwsId, mergeScores, effScore, scoreGE, List.insertionSort,
      List.orderedInsert, nodeD, nodeE])

/-- C2.  De-duplication: any fused output list of
`HybridRetriever._retrieve` contains each node identifier at most once
(the Candidate Set `node_dict` keys are unique and each value is keyed by
its own node identifier). -/
theorem claim_C2_dedup {v b out : List NodeWithScore}
    (hok : hybridFuse v b = Except.ok out) :
    (out.map nwsId).Nodup := by
  obtain ⟨dv, db, hdv, hdb, hout⟩ := hybridFuse_ok_elim hok
  have hinv : DictInv db :=
    insertAll_inv (insertAll_inv ⟨by simp, by simp⟩ hdv) hdb
  have hperm : out.Perm (db.map Prod.snd) :=
    hout ▸ List.perm_insertionSort scoreGE _
  have hids : (db.map Prod.snd).map nwsId = db.map Prod.fst := by
    rw [List.map_map]
    exact List.map_congr_left (fun p hp => hinv.2 p hp)
  have hping : (out.map nwsId).Perm (db.map Prod.fst) := by
    rw [← hids]
    exact hperm.map nwsId
  exact hping.nodup_iff.mpr hinv.1

/-- Witness for C2: node `E` is returned by both stages, `D` by one; the
fused output mentions each identifier once. -/
theorem claim_C2_dedup_witness :
    ((([(⟨nodeD, some (9/10)⟩ : NodeWithScore), ⟨nodeE, some (7/10)⟩]).map
      nwsId).Nodup) :=
  @claim_C2_dedup [⟨nodeD, some (9/10)⟩, ⟨nodeE, some (6/10)⟩]
    [⟨nodeE, some (8/10)⟩]
    [⟨nodeD, some (9/10)⟩, ⟨nodeE, some (7/10)⟩]
    (by norm_num +decide [hybridFuse, insertAll, insertNode, updateScore,
      lookupD, nwsId, mergeScores, effScore, scoreGE, List.insertionSort,
      List.orderedInsert, nodeD, nodeE])

/-- C3.  Fused ordering and no truncation: the successful output of
`HybridRetriever._retrieve` is exactly the Candidate Set's values (vector
stage inserted first, then the lexical stage) sorted stably by effective
score descending: it is a permutation of the candidate values (nothing is
truncated or added), pairwise ordered by descending effective score, and
every equal-score class keeps the candidate insertion order (stability). -/
theorem claim_C3_sorted_stable_untruncated {v b out : List NodeWithScore}
    (hok : hybridFuse v b = Except.ok out) :
    ∃ dv db, insertAll [] v = Except.ok dv ∧ insertAll dv b = Except.ok db ∧
      out = List.insertionSort scoreGE (db.map Prod.snd) ∧
      out.Perm (db.map Prod.snd) ∧
      List.Pairwise (fun x y => effScore y ≤ effScore x) out ∧
      ∀ q : ℚ, out.filter (fun n => decide (effScore n = q)) =
        (db.map Prod.snd).filter (fun n => decide (effScore n = q)) := by
  obtain ⟨dv, db, hdv, hdb, hout⟩ := hybridFuse_ok_elim hok
  refine ⟨dv, db, hdv, hdb, hout, ?_, ?_, ?_⟩
  · exact hout ▸ List.perm_insertionSort scoreGE _
  · rw [hout]
    exact List.sorted_insertionSort scoreGE _
  · intro q
    rw [hout]
    exact filter_insertionSort q _

/-- Witness for C3 at a concrete input with a score tie between `D` and
`N` (both effective score `1`; `D` was inserted first and stays first). -/
theorem claim_C3_sorted_stable_untruncated_witness :
    ∃ dv db,
      insertAll [] [(⟨nodeD, some 1⟩ : NodeWithScore)] = Except.ok dv ∧
      insertAll dv [(⟨nodeN, some 1⟩ : NodeWithScore)] = Except.ok db ∧
      [(⟨nodeD, some 1⟩ : NodeWithScore), ⟨nodeN, some 1⟩] =
        List.insertionSort scoreGE (db.map Prod.snd) ∧
      List.Perm [(⟨nodeD, some 1⟩ : NodeWithScore), ⟨nodeN, some 1⟩]
        (db.map Prod.snd) ∧
      List.Pairwise (fun x y => effScore y ≤ effScore x)
        [(⟨nodeD, some 1⟩ : NodeWithScore), ⟨nodeN, some 1⟩] ∧
      ∀ q : ℚ,
        ([(⟨nodeD, some 1⟩ : NodeWithScore), ⟨nodeN, some 1⟩]).filter
            (fun n => decide (effScore n = q)) =
          (db.map Prod.snd).filter (fun n => decide (effScore n = q)) :=
  @claim_C3_sorted_stable_untruncated [⟨nodeD, some 1⟩] [⟨nodeN, some 1⟩]
    [⟨nodeD, some 1⟩, ⟨nodeN, some 1⟩]
    (by norm_num +decide [hybridFuse, insertAll, insertNode, updateScore,
      lookupD, nwsId, mergeScores, effScore, scoreGE, List.insertionSort,
      List.orderedInsert, nodeD, nodeN])

/-- C10.  Frame property of the merge: when identifier `X` is returned by
both sub-retrievers, the fused entry for `X` is the vector-stage
`NodeWithScore` with only its `score` field replaced by the average — its
node (identifier, text, window, metadata) is the vector-stage node and the
lexical-stage node object does not reach the output.  (The Python-level
in-place mutation of the stored object is not value-observable; the
observable frame — every field except `score` comes from the vector-stage
result — is what is stated.) -/
theorem claim_C10_merge_frame
    {v1 v2 b1 b2 : List NodeWithScore} {nv nb : NodeWithScore} {X : String}
    {a q : ℚ} {out : List NodeWithScore}
    (hvX : nwsId nv = X) (hbX : nwsId nb = X)
    (ha : nv.score = some a) (hq : nb.score = some q)
    (hv1 : ∀ n ∈ v1, ¬ nwsId n = X) (hv2 : ∀ n ∈ v2, ¬ nwsId n = X)
    (hb1 : ∀ n ∈ b1, ¬ nwsId n = X) (hb2 : ∀ n ∈ b2, ¬ nwsId n = X)
    (hok : hybridFuse (v1 ++ nv :: v2) (b1 ++ nb :: b2) = Except.ok out) :
    ({ nv with score := some ((a + q) / 2) } : NodeWithScore) ∈ out ∧
      ∀ m ∈ out, m.node.node_id = X →
        m = { nv with score := some ((a + q) / 2) } :=
  fused_entry_of_both hvX hbX ha hq hv1 hv2 hb1 hb2 hok

/-- Witness for C10: `E` from both stages; the fused entry for `E` is the
vector-stage record (vector-stage text and window) with only the score
replaced. -/
theorem claim_C10_merge_frame_witness :
    (({ node := nodeE, score := some ((6/10 + 8/10) / 2) } : NodeWithScore) ∈
        [(⟨nodeD, some (9/10)⟩ : NodeWithScore),
          ⟨nodeE, some (7/10)⟩]) ∧
      ∀ m ∈ [(⟨nodeD, some (9/10)⟩ : NodeWithScore), ⟨nodeE, some (7/10)⟩],
        m.node.node_id = "E" →
          m = { node := nodeE, score := some ((6/10 + 8/10) / 2) } :=
  @claim_C10_merge_frame [⟨nodeD, some (9/10)⟩] [] [] []
    ⟨nodeE, some (6/10)⟩ ⟨nodeE, some (8/10)⟩ "E" (6/10) (8/10)
    [⟨nodeD, some (9/10)⟩, ⟨nodeE, some (7/10)⟩]
    rfl rfl rfl rfl (by decide) (by decide) (by decide) (by decide)
    (by norm_num +decide [hybridFuse, insertAll, insertNode, updateScore,
      lookupD, nwsId, mergeScores, effScore, scoreGE, List.insertionSort,
      List.orderedInsert, nodeD, nodeE])

/-- C4.  All-or-nothing retrieval failure: if the vector sub-retriever
raises, or the vector one succeeds and the lexical one raises, then
`_retrieve` fails as a whole with that same error and yields no partial
candidate list (there is no `try/except` around the two calls at lines
43-44). -/
theorem claim_C4_all_or_nothing
    (vr br : String → Except String (List NodeWithScore)) (query e : String)
    (h : vr query = Except.error e ∨
      ((∃ v, vr query = Except.ok v) ∧ br query = Except.error e)) :
    hybridRetrieve vr br query = Except.error e := by
  rcases h with h | ⟨⟨v, hv⟩, hb⟩
  · rw [hybridRetrieve, h]
  · rw [hybridRetrieve, hv, hb]

/-- Witness for C4: a failing lexical sub-retriever makes the whole
retrieve call fail with its error. -/
theorem claim_C4_all_or_nothing_witness :
    hybridRetrieve (fun _ => Except.ok [(⟨nodeD, some 1⟩ : NodeWithScore)])
      (fun _ => Except.error "BM25 retriever failed") "mammals" =
      Except.error "BM25 retriever failed" :=
  claim_C4_all_or_nothing _ _ "mammals" "BM25 retriever failed"
    (Or.inr ⟨⟨[⟨nodeD, some 1⟩], rfl⟩, rfl⟩)

/-- C5.  Determinism of fusion: the fused output is a function of the two
sub-retriever result lists alone — two retrieve calls whose sub-retrievers
return the same results (in particular, repeated calls on a fixed index
state and query) produce identical output: same node identifiers, same
order.  The embedded `_retrieve` is a pure function of those lists: the
insertion-ordered dict and the stable sort introduce no nondeterminism. -/
theorem claim_C5_determinism
    (vr br vr2 br2 : String → Except String (List NodeWithScore))
    (q1 q2 : String)
    (hv : vr q1 = vr2 q2) (hb : br q1 = br2 q2) :
    hybridRetrieve vr br q1 = hybridRetrieve vr2 br2 q2 := by
  unfold hybridRetrieve
  rw [hv, hb]

/-- Witness for C5: two calls with identical sub-retriever results. -/
theorem claim_C5_determinism_witness :
    hybridRetrieve (fun _ => Except.ok [(⟨nodeD, some 1⟩ : NodeWithScore)])
        (fun _ => Except.ok []) "mammals" =
      hybridRetrieve (fun _ => Except.ok [(⟨nodeD, some 1⟩ : NodeWithScore)])
        (fun _ => Except.ok []) "mammals" :=
  claim_C5_determinism _ _ _ _ "mammals" "mammals" rfl rfl

/-- C6.  Re-ranker bound: for every candidate list and every requested
count `top_n ≥ 0`, the re-ranker returns exactly
`min top_n (number of candidates)` results — all available candidates when
more are requested than exist, never padding (and, being a total function,
never raising). -/
theorem claim_C6_rerank_bound (crossScore : String → Node → ℚ)
    (query : String) (top_n : Nat) (candidates : List NodeWithScore) :
    (colbertRerank crossScore query top_n candidates).length =
      min top_n candidates.length := by
  unfold colbertRerank
  rw [List.length_take, List.length_insertionSort, List.length_map]

/-- C7.  Fail-fast on missing or empty document store: whenever the storage
directory is missing, or the docstore file is missing, or the persisted
docstore maps zero documents, `setup_query_engine` returns a descriptive
error — no query engine is produced, so no query can run; and conversely
any state in which `setup_query_engine` does return an engine has a
docstore with at least one document backing that engine. -/
theorem claim_C7_fail_fast (s : StorageState)
    (h : s.storageDirExists = false ∨ s.docstoreFileExists = false ∨
      s.docstoreDocCount = 0) :
    (∃ e, setup_query_engine s = Except.error e) ∧
      ∀ s2 : StorageState, ∀ eng,
        setup_query_engine s2 = Except.ok eng →
          0 < s2.docstoreDocCount ∧ eng.docCount = s2.docstoreDocCount := by
  constructor
  · rcases h with h | h | h
    · obtain ⟨sd, df, hk2, cnt, ak⟩ := s
      subst h
      exact ⟨_, rfl⟩
    · obtain ⟨sd, df, hk2, cnt, ak⟩ := s
      subst h
      cases sd <;> exact ⟨_, rfl⟩
    · obtain ⟨sd, df, hk2, cnt, ak⟩ := s
      subst h
      cases sd <;> cases df <;> cases hk2 <;> exact ⟨_, rfl⟩
  · intro s2 eng h2
    obtain ⟨sd, df, hk2, cnt, ak⟩ := s2
    cases sd <;> cases df <;> cases hk2 <;> cases ak <;> cases cnt <;>
      simp_all [setup_query_engine, verify_storage] <;>
      (cases h2 ; rfl)

/-- Witness for C7: with everything missing and an empty docstore, setup
fails, and any successful setup has a non-empty docstore. -/
theorem claim_C7_fail_fast_witness :
    (∃ e, setup_query_engine ⟨false, false, false, 0, false⟩ =
      Except.error e) ∧
      ∀ s2 : StorageState, ∀ eng,
        setup_query_engine s2 = Except.ok eng →
          0 < s2.docstoreDocCount ∧ eng.docCount = s2.docstoreDocCount :=
  claim_C7_fail_fast ⟨false, false, false, 0, false⟩ (Or.inl rfl)

/-- C8.  Empty result handling: when both sub-retrievers return empty
lists, the fusion returns the empty list — `Except.ok []`, not an error —
and the query-serving layer (modelled from the spec, see
`queryEngineAnswer`) still produces a well-formed response whose source
list is empty, rather than failing. -/
theorem claim_C8_empty_results (synth : List NodeWithScore → String)
    (crossScore : String → Node → ℚ) (top_n : Nat) (query : String) :
    hybridFuse [] [] = Except.ok [] ∧
      queryEngineAnswer synth crossScore top_n (hybridFuse [] []) query =
        Except.ok ⟨synth [], []⟩ := by
  refine ⟨rfl, ?_⟩
  show queryEngineAnswer synth crossScore top_n (Except.ok []) query = _
  simp [queryEngineAnswer, colbertRerank, List.insertionSort]

/-- C9, counterexample to totality: a node whose vector-stage score is
`None` and which the lexical stage also returns cannot be merged — the
fusion evaluates `None + 1` inside `(old + new) / 2` and raises a
`TypeError` instead of treating the missing score as `0`. -/
theorem claim_C9_counterexample :
    hybridFuse [(⟨nodeN, none⟩ : NodeWithScore)]
        [(⟨nodeN, some 1⟩ : NodeWithScore)] =
      Except.error "TypeError: unsupported operand for +: NoneType" := by
  norm_num +decide [hybridFuse, insertAll, insertNode, updateScore, lookupD,
    nwsId, mergeScores, nodeN]

/-- C9 (amended).  Every node of either stage keeps exactly one (optional)
score and is never silently dropped whenever the fusion succeeds: its
identifier appears in the output, and the output is ordered by effective
score with a missing score ranked as `0`.  The fusion is however not total:
merging a node whose stored score is `None` raises a `TypeError` (see the
counterexample), rather than defaulting the missing score to `0`. -/
theorem claim_C9_no_silent_drop {v b out : List NodeWithScore}
    (hok : hybridFuse v b = Except.ok out) :
    (∀ n ∈ v ++ b, ∃ m ∈ out, nwsId m = nwsId n) ∧
      List.Pairwise (fun x y => effScore y ≤ effScore x) out := by
  obtain ⟨dv, db, hdv, hdb, hout⟩ := hybridFuse_ok_elim hok
  constructor
  · intro n hn
    have hsome : (lookupD db (nwsId n)).isSome := by
      rcases List.mem_append.mp hn with h0 | h0
      · exact insertAll_isSome_mono (insertAll_mem_isSome h0 hdv) hdb
      · exact insertAll_mem_isSome h0 hdb
    obtain ⟨m, hm⟩ := Option.isSome_iff_exists.mp hsome
    have hinvdb : DictInv db :=
      insertAll_inv (insertAll_inv ⟨by simp, by simp⟩ hdv) hdb
    have hid : nwsId m = nwsId n := hinvdb.2 (nwsId n, m) (lookupD_mem hm)
    refine ⟨m, ?_, hid⟩
    rw [hout]
    exact (List.perm_insertionSort scoreGE _).mem_iff.mpr
      (List.mem_map.mpr ⟨(nwsId n, m), lookupD_mem hm, rfl⟩)
  · rw [hout]
    exact List.sorted_insertionSort scoreGE _

/-- Witness for the amended C9: a `None`-scored node returned by one stage
only is kept in the output and ordered as effective score `0`. -/
theorem claim_C9_no_silent_drop_witness :
    (∀ n ∈ [(⟨nodeN, none⟩ : NodeWithScore)] ++
        [(⟨nodeD, some 1⟩ : NodeWithScore)],
      ∃ m ∈ [(⟨nodeD, some 1⟩ : NodeWithScore), ⟨nodeN, none⟩],
        nwsId m = nwsId n) ∧
      List.Pairwise (fun x y => effScore y ≤ effScore x)
        [(⟨nodeD, some 1⟩ : NodeWithScore), ⟨nodeN, none⟩] :=
  @claim_C9_no_silent_drop [⟨nodeN, none⟩] [⟨nodeD, some 1⟩]
    [⟨nodeD, some 1⟩, ⟨nodeN, none⟩]
    (by norm_num +decide [hybridFuse, insertAll, insertNode, updateScore,
      lookupD, nwsId, mergeScores, effScore, scoreGE, List.insertionSort,
      List.orderedInsert, nodeD, nodeN])
